import Mathlib

/-!
Verification of the request-routing and instance-lifecycle subsystem of the
neutree repository: the chat-aware cache-key extractor and the CHWBL replica
scheduler (serve/_replica_scheduler/chwbl_scheduler.py), the static payload-hash
request router (serve/_request_route/static_hash_request_route.py), and the
staged engine pool manager (serve/fast-vllm/v2/app.py with stageable_engine.py).

The Python code is shallowly embedded: dictionaries become association lists,
floats become rationals, machinery external to the repository (MD5, the engine
itself) is abstracted (the hash function is a parameter, engine initialisation
is modelled as succeeding), and code that would raise an exception returns an
explicit error value.
-/

namespace Neutree

/-! ### Association-list dictionaries (Python dict semantics) -/

/-- Lookup in an association list: the first entry with the given key
(Python dicts have unique keys, so this is dict access). -/
def dlookup {κ α : Type} [DecidableEq κ] (k : κ) : List (κ × α) → Option α
  | [] => none
  | (k', v) :: rest => if k' = k then some v else dlookup k rest

/-- Insertion with dict semantics: replace the entry in place when the key is
present, otherwise append at the end (insertion order preserved). -/
def dinsert {κ α : Type} [DecidableEq κ] (k : κ) (v : α) :
    List (κ × α) → List (κ × α)
  | [] => [(k, v)]
  | (k', v') :: rest =>
      if k' = k then (k, v) :: rest else (k', v') :: dinsert k v rest

/-- Deletion of the (unique) entry with the given key, `del d[k]`. -/
def ddelete {κ α : Type} [DecidableEq κ] (k : κ) :
    List (κ × α) → List (κ × α)
  | [] => []
  | (k', v) :: rest => if k' = k then rest else (k', v) :: ddelete k rest

/-! ### Chat payloads and `_extract_cache_key`
(serve/_replica_scheduler/chwbl_scheduler.py, lines 333-399) -/

/-- One element of the `messages` list: either a dict with `role`/`content`
(a missing key yields the default empty string, as in `msg.get`), or a
non-dict element, which the extractor skips. -/
inductive Msg
  | entry (role : String) (content : String)
  | nondict
deriving DecidableEq, Repr

/-- The request dict that carries the `messages` field
(`request_data.get('messages', [])`; an absent field is the empty list). -/
structure ReqData where
  messages : List Msg
deriving DecidableEq, Repr

/-- The router payload (`pending_request.args`).  `noneP` covers all falsy
payloads (None, empty tuple/list/dict); the other constructors cover truthy
payloads together with their Python string representation `str(payload)`:
a tuple/list whose first element is a dict, a tuple/list whose first element
is not a dict (`.get` then raises and the extractor falls back to the
request id), a dict, and anything else. -/
inductive Payload
  | noneP
  | dictP (d : ReqData) (pyRepr : String)
  | seqDict (d : ReqData) (pyRepr : String)
  | seqNonDict (pyRepr : String)
  | otherP (pyRepr : String)
deriving DecidableEq, Repr

/-- `str(payload)` for truthy payloads (unused for `noneP`). -/
def Payload.reprStr : Payload → String
  | .noneP => ""
  | .dictP _ r => r
  | .seqDict _ r => r
  | .seqNonDict r => r
  | .otherP r => r

/-- The message scan of `_extract_cache_key`: remember the latest system
content, collect user contents in order, and break out of the loop as soon
as the user quota `maxU` is reached (the Python appends and then breaks when
`len(user_messages) >= max_user_messages_for_cache`). -/
def collectMsgs (maxU : Nat) : List Msg → Option String → List String →
    Option String × List String
  | [], sys, users => (sys, users)
  | Msg.nondict :: rest, sys, users => collectMsgs maxU rest sys users
  | Msg.entry role content :: rest, sys, users =>
      if role = "system" then collectMsgs maxU rest (some content) users
      else if role = "user" then
        let users' := users ++ [content]
        if maxU ≤ users'.length then (sys, users')
        else collectMsgs maxU rest sys users'
      else collectMsgs maxU rest sys users

/-- Build the cache key from a request dict: the `system:` component is added
only when the captured system prompt is truthy (a non-empty string), the user
components are enumerated, and when no component was captured the key falls
back to `str(payload)`. -/
def extractFromData (maxU : Nat) (d : ReqData) (payloadRepr : String) : String :=
  let sysUsers := collectMsgs maxU d.messages none []
  let comps :=
    (match sysUsers.1 with
     | some c => if c = "" then [] else ["system:" ++ c]
     | none => []) ++
    sysUsers.2.enum.map (fun ic => "user_" ++ toString ic.1 ++ ":" ++ ic.2)
  if comps = [] then payloadRepr else String.intercalate "|" comps

/-- `_extract_cache_key(payload, request_id)`: falsy payload falls back to the
request id, a tuple/list takes its first element as the request dict (a
non-dict first element raises inside `try` and falls back to the request id),
a dict is the request dict itself, anything else yields `str(payload)`. -/
def extract_cache_key (maxU : Nat) (payload : Payload) (requestId : String) :
    String :=
  match payload with
  | .noneP => requestId
  | .seqNonDict _ => requestId
  | .otherP r => r
  | .seqDict d r => extractFromData maxU d r
  | .dictP d r => extractFromData maxU d r

/-! #### C1: the claim's reading of the extractor, and its amended form -/

/-- Latest system content in a message list, starting from an accumulator. -/
def latestSystemFrom (acc : Option String) (msgs : List Msg) : Option String :=
  msgs.foldl
    (fun a m =>
      match m with
      | Msg.entry role content => if role = "system" then some content else a
      | Msg.nondict => a) acc

/-- Latest system content anywhere in a message list. -/
def latestSystemAll (msgs : List Msg) : Option String :=
  latestSystemFrom none msgs

/-- Contents of all user messages in document order. -/
def userContentsAll (msgs : List Msg) : List String :=
  msgs.filterMap
    (fun m =>
      match m with
      | Msg.entry role content => if role = "user" then some content else none
      | Msg.nondict => none)

/-- Modelled from the claim C1's wording (not from the source): the
`system:` component uses the latest system message anywhere in the list, the
user components are the first `maxU` user messages in document order, and the
fallback is `str(payload)` when nothing was captured. -/
def claimCacheKey (maxU : Nat) (msgs : List Msg) (payloadRepr : String) :
    String :=
  let comps :=
    (match latestSystemAll msgs with
     | some c => ["system:" ++ c]
     | none => []) ++
    ((userContentsAll msgs).take maxU).enum.map
      (fun ic => "user_" ++ toString ic.1 ++ ":" ++ ic.2)
  if comps = [] then payloadRepr else String.intercalate "|" comps

/-- The prefix of the message list the source actually scans: everything up to
and including the user message that fills the quota (the scan appends a user
content and stops once the count reaches `maxU`). -/
def quotaScan (maxU : Nat) : Nat → List Msg → List Msg
  | _, [] => []
  | cnt, m :: rest =>
      match m with
      | Msg.entry role _ =>
          if role = "user" then
            if maxU ≤ cnt + 1 then [m]
            else m :: quotaScan maxU (cnt + 1) rest
          else m :: quotaScan maxU cnt rest
      | Msg.nondict => m :: quotaScan maxU cnt rest

/-- The amended cache key: the claim's recipe applied to the scanned prefix
only, with the system component kept only when its content is non-empty. -/
def amendedCacheKey (maxU : Nat) (msgs : List Msg) (payloadRepr : String) :
    String :=
  let pre := quotaScan maxU 0 msgs
  let comps :=
    (match latestSystemAll pre with
     | some c => if c = "" then [] else ["system:" ++ c]
     | none => []) ++
    (userContentsAll pre).enum.map
      (fun ic => "user_" ++ toString ic.1 ++ ":" ++ ic.2)
  if comps = [] then payloadRepr else String.intercalate "|" comps

/-- Concrete message list for the C1 counterexample: the system message comes
after the second user message, so the source's early break never sees it. -/
def c1Msgs : List Msg :=
  [Msg.entry "user" "u1", Msg.entry "user" "u2", Msg.entry "system" "s"]

/-! ### Static-hash request router
(serve/_request_route/static_hash_request_route.py, lines 70-99) -/

/-- A pending request: `{args, metadata.request_id}`. -/
structure PendingReq where
  payload : Payload
  requestId : String
deriving DecidableEq, Repr

/-- The payload string the router hashes: `str(request_id)` for a falsy
payload, `str(payload)` otherwise. -/
def routePayloadStr (pr : PendingReq) : String :=
  match pr.payload with
  | .noneP => pr.requestId
  | p => p.reprStr

/-- The exceptions `choose_replicas` can raise: attribute access on an absent
pending request, and the modulo by `len(candidate_replicas)` when the
candidate list is empty. -/
inductive RouteError
  | attrError
  | zeroDivError
deriving DecidableEq, Repr

/-- `StaticHashRequestRouter.choose_replicas`, with the MD5-derived integer
hash abstracted as the parameter `hashF`.  The source dereferences
`pending_request.args` unconditionally and takes the hash modulo
`len(candidate_replicas)` unconditionally, so both edge cases raise. -/
def chooseReplicas (hashF : String → Nat) (cands : List String)
    (pending : Option PendingReq) : Except RouteError (List (List String)) :=
  match pending with
  | none => .error .attrError
  | some pr =>
      let ps := routePayloadStr pr
      match cands with
      | [] => .error .zeroDivError
      | c :: cs =>
          .ok [[(c :: cs).get
            ⟨hashF ps % (c :: cs).length, Nat.mod_lt _ (Nat.succ_pos cs.length)⟩]]

/-! ### CHWBL replica scheduler
(serve/_replica_scheduler/chwbl_scheduler.py) -/

/-- `bisect.bisect_left` on a sorted list: the number of elements strictly
below the probe (the leftmost insertion point). -/
def bisectLeft (l : List Nat) (x : Nat) : Nat :=
  (l.takeWhile (fun y => decide (y < x))).length

/-- `bisect.insort` on a sorted list: insert after all elements `≤ x`. -/
def insortRight (x : Nat) : List Nat → List Nat
  | [] => [x]
  | y :: rest => if y ≤ x then y :: insortRight x rest else x :: y :: rest

/-- The conditional pop of `_remove_replica_from_ring`: binary-search the
point and drop it only when the element at the found index matches. -/
def removePoint (p : Nat) (l : List Nat) : List Nat :=
  match l.get? (bisectLeft l p) with
  | some v => if v = p then l.eraseIdx (bisectLeft l p) else l
  | none => l

/-- The scheduler state: `self._replicas` (ids, in insertion order),
`self._replica_queue_len_cache` (loads as Python ints), the hash ring
`self._hash_to_replica_id` / `self._sorted_hashes`, and the configuration. -/
structure ChwblState where
  replicas : List String
  queueLenCache : List (String × Int)
  hashToReplica : List (Nat × String)
  sortedHashes : List Nat
  loadFactor : ℚ
  maxUserMessages : Nat
deriving DecidableEq, Repr

/-- `_create_load_snapshot`: one entry per known replica, missing cache
entries read as load 0. -/
def createLoadSnapshot (s : ChwblState) : List (String × Int) :=
  s.replicas.map (fun rid => (rid, (dlookup rid s.queueLenCache).getD 0))

/-- `_check_load_with_snapshot`: the bounded-load test
`load + 1 <= load_factor * (total_load + 1) / num_replicas` (float arithmetic
modelled over the rationals). -/
def checkLoadWithSnapshot (s : ChwblState) (rid : String)
    (snap : List (String × Int)) : Bool :=
  decide ((((dlookup rid snap).getD 0 : Int) : ℚ) + 1 ≤
    ((((snap.map Prod.snd).sum : Int) : ℚ) + 1) / (s.replicas.length : ℚ) *
      s.loadFactor)

/-- `_search`: the first ring point `>= key_hash`, wrapping to index 0 past
the end; returns the point together with its index. -/
def ringSearch (l : List Nat) (keyHash : Nat) : Nat × Nat :=
  let idx0 := bisectLeft l keyHash
  let idx := if l.length ≤ idx0 then 0 else idx0
  (l.getD idx 0, idx)

/-- Result of `choose_replica_for_request`: a chosen replica id, the `None`
returns of the source, a `KeyError` on a ring point missing from the mapping,
and fuel exhaustion standing for non-termination of the source's while loop
(unreachable on the consistent states considered here). -/
inductive ChooseResult
  | replica (rid : String)
  | noneResult
  | keyError
  | diverge
deriving DecidableEq, Repr

/-- The ring walk of `choose_replica_for_request`: visit ring points from
`idx`, skip replica ids already checked, remember the first valid replica as
the default, return the first replica passing the bounded-load test, and fall
back to the default (then `None`) after all replicas were checked. -/
def chooseLoop (s : ChwblState) (snap : List (String × Int)) :
    Nat → Nat → List String → Option String → ChooseResult
  | 0, _, _, _ => .diverge
  | fuel + 1, idx, checked, dflt =>
      if checked.length < s.replicas.length then
        match dlookup ((s.sortedHashes.get? idx).getD 0) s.hashToReplica with
        | none => .keyError
        | some rid =>
            if rid ∈ checked then
              chooseLoop s snap fuel ((idx + 1) % s.sortedHashes.length) checked dflt
            else
              if rid ∈ s.replicas then
                if checkLoadWithSnapshot s rid snap then .replica rid
                else
                  chooseLoop s snap fuel ((idx + 1) % s.sortedHashes.length)
                    (rid :: checked)
                    (match dflt with
                     | none => some rid
                     | some d => some d)
              else
                chooseLoop s snap fuel ((idx + 1) % s.sortedHashes.length)
                  (rid :: checked) dflt
      else
        match dflt with
        | some d => .replica d
        | none => .noneResult

/-- Fuel bound for the ring walk: each iteration either adds a replica id to
`checked` or skips one of at most `sortedHashes.length` points, so this bound
covers every terminating run of the source loop. -/
def chooseFuel (s : ChwblState) : Nat :=
  s.sortedHashes.length * (s.replicas.length + 1) + 2

/-- `choose_replica_for_request` (lines 85-166): guard on empty state, extract
the cache key, hash it (`hashF` abstracts `_hash`), find the starting ring
point, snapshot the loads, and walk the ring. -/
def chooseReplicaForRequest (hashF : String → Nat) (s : ChwblState)
    (payload : Payload) (requestId : String) : ChooseResult :=
  if s.replicas.length = 0 ∨ s.sortedHashes.length = 0 then .noneResult
  else
    match dlookup (ringSearch s.sortedHashes
        (hashF (extract_cache_key s.maxUserMessages payload requestId))).1
        s.hashToReplica with
    | none => .keyError
    | some _ =>
        chooseLoop s (createLoadSnapshot s) (chooseFuel s)
          (ringSearch s.sortedHashes
            (hashF (extract_cache_key s.maxUserMessages payload requestId))).2
          [] none

/-- `on_request_completed` (lines 401-421): decrement the cached load clamped
at zero; when no cache entry exists, log and return unchanged. -/
def on_request_completed (cache : List (String × Int)) (rid : String) :
    List (String × Int) :=
  match dlookup rid cache with
  | none => cache
  | some n => dinsert rid (max 0 (n - 1)) cache

/-! ### Hash-ring maintenance
(`_add_replica_to_ring` / `_remove_replica_from_ring`, lines 228-256) -/

/-- The ring: `self._hash_to_replica_id` and `self._sorted_hashes`. -/
structure Ring where
  hashToReplica : List (Nat × String)
  sortedHashes : List Nat
deriving DecidableEq, Repr

def emptyRing : Ring := ⟨[], []⟩

/-- The virtual-node key string `f"{replica_id}:{i}"`. -/
def vkey (rid : String) (i : Nat) : String := rid ++ ":" ++ toString i

/-- `_add_replica_to_ring`: for each virtual node, map its hash point to the
replica and insert the point into the sorted list. -/
def addReplicaToRing (hashF : String → Nat) (v : Nat) (rid : String)
    (r : Ring) : Ring :=
  (List.range v).foldl
    (fun racc i =>
      let pt := hashF (vkey rid i)
      { hashToReplica := dinsert pt rid racc.hashToReplica
        sortedHashes := insortRight pt racc.sortedHashes }) r

/-- The hash points currently mapped to a replica (the collection pass of
`_remove_replica_from_ring`, in dict iteration order). -/
def replicaPoints (r : Ring) (rid : String) : List Nat :=
  (r.hashToReplica.filter (fun kv => decide (kv.2 = rid))).map Prod.fst

/-- `_remove_replica_from_ring`: delete every collected point from the map
and pop one matching element from the sorted list. -/
def removeReplicaFromRing (rid : String) (r : Ring) : Ring :=
  (replicaPoints r rid).foldl
    (fun racc p =>
      { hashToReplica := ddelete p racc.hashToReplica
        sortedHashes := removePoint p racc.sortedHashes }) r

/-- One ring mutation, as issued by `update_replicas` /
`on_replica_actor_died`. -/
inductive RingOp
  | addOp (rid : String)
  | removeOp (rid : String)
deriving DecidableEq, Repr

/-- Apply a sequence of ring mutations. -/
def applyOps (hashF : String → Nat) (v : Nat) (ops : List RingOp) (r : Ring) :
    Ring :=
  ops.foldl
    (fun racc op =>
      match op with
      | .addOp rid => addReplicaToRing hashF v rid racc
      | .removeOp rid => removeReplicaFromRing rid racc) r

/-- Well-formed mutation sequences relative to the set of present replicas:
both call sites add a replica only when absent and remove only when present
(`update_replicas` diffs the id sets, `on_replica_actor_died` checks
membership). -/
def wfOps : List RingOp → List String → Bool
  | [], _ => true
  | RingOp.addOp rid :: rest, pres =>
      decide (rid ∉ pres) && wfOps rest (rid :: pres)
  | RingOp.removeOp rid :: rest, pres =>
      decide (rid ∈ pres) && wfOps rest (pres.erase rid)

/-- The replica ids added anywhere in a mutation sequence. -/
def ridsOf (ops : List RingOp) : List String :=
  ops.filterMap
    (fun op =>
      match op with
      | RingOp.addOp rid => some rid
      | RingOp.removeOp _ => none)

/-- Collision-freedom of the hash on the virtual-node keys of the given
replica ids: distinct keys among them receive distinct points. -/
def KeyInj (hashF : String → Nat) (v : Nat) (l : List String) : Prop :=
  ∀ r1 ∈ l, ∀ r2 ∈ l, ∀ i1 ∈ List.range v, ∀ i2 ∈ List.range v,
    hashF (vkey r1 i1) = hashF (vkey r2 i2) → r1 = r2 ∧ i1 = i2

instance decKeyInj (hashF : String → Nat) (v : Nat) (l : List String) :
    Decidable (KeyInj hashF v l) := by
  unfold KeyInj
  infer_instance

/-- A hash function with a virtual-node collision, for the C6 counterexample:
both virtual nodes of replica `A` land on point 5. -/
def collHash : String → Nat := fun _ => 5

/-! ### Staged engine pool manager
(serve/fast-vllm/v2/app.py and stageable_engine.py) -/

/-- `EngineStage` (stageable_engine.py, lines 66-71). -/
inductive EngineStage
  | uninitialized
  | stage1Ready
  | stage2Active
  | stage2Cooldown
  | errorStage
deriving DecidableEq, Repr

/-- An `EngineInstance` together with the engine metrics the lifecycle loop
reads (timestamps as integers, faithful to the float seconds of the source for the
order comparisons and subtractions the lifecycle performs; `last_request_at`
starts as `None`, `stage2_completed_at` defaults to `0.0`). -/
structure EngineInstance where
  instanceId : String
  stage : EngineStage
  activeRequests : Int
  gpuId : Option Nat
  cooldownStartTime : Option Int
  lastRequestAt : Option Int
  stage2CompletedAt : Int
  totalRequests : Int
deriving DecidableEq, Repr

/-- `StageablePoolManager` state: the instance dict (insertion order), the
GPU allocation map, the instance counter, and the two delays. -/
structure PoolState where
  instances : List EngineInstance
  gpuAlloc : List (Nat × Option String)
  instanceCounter : Nat
  cooldownDelay : Int
  recycleDelay : Int
deriving DecidableEq, Repr

/-- `self.instances[iid]` (first — and only — instance with this id). -/
def findInst (s : PoolState) (iid : String) : Option EngineInstance :=
  s.instances.find? (fun i => decide (i.instanceId = iid))

/-- Replace the instance with the given id. -/
def updateInst (s : PoolState) (iid : String)
    (f : EngineInstance → EngineInstance) : PoolState :=
  { s with instances :=
      s.instances.map (fun i => if i.instanceId = iid then f i else i) }

/-- `last_activity = last_request_at or stage2_completed_at or current_time`:
Python `or` takes the first truthy operand, and both `None` and `0.0` are
falsy. -/
def lastActivity (inst : EngineInstance) (now : Int) : Int :=
  match inst.lastRequestAt with
  | some t =>
      if t = 0 then (if inst.stage2CompletedAt = 0 then now else inst.stage2CompletedAt)
      else t
  | none => if inst.stage2CompletedAt = 0 then now else inst.stage2CompletedAt

/-- `_should_trigger_cooldown` (lines 341-360): no active requests and idle
longer than `cooldown_delay`. -/
def shouldTriggerCooldown (delay : Int) (inst : EngineInstance) (now : Int) :
    Bool :=
  if 0 < inst.activeRequests then false
  else decide (delay < now - lastActivity inst now)

/-- `_should_recycle` (lines 362-383): no active requests and in cooldown
longer than `recycle_delay` (the cooldown start is always set on the path
that reaches this check). -/
def shouldRecycle (delay : Int) (inst : EngineInstance) (now : Int) : Bool :=
  if 0 < inst.activeRequests then false
  else decide (delay < now - (inst.cooldownStartTime.getD now))

/-- `_trigger_cooldown` (lines 385-409): guard on existence and stage, then
`mark_cooldown` and record `_cooldown_start_time = now`. -/
def triggerCooldown (s : PoolState) (iid : String) (now : Int) : PoolState :=
  match findInst s iid with
  | none => s
  | some inst =>
      if inst.stage = EngineStage.stage2Active then
        updateInst s iid
          (fun i => { i with stage := EngineStage.stage2Cooldown,
                             cooldownStartTime := some now })
      else s

/-- `self.gpu_allocation[g] = owner`. -/
def setAlloc (s : PoolState) (g : Nat) (owner : Option String) : PoolState :=
  { s with gpuAlloc := dinsert g owner s.gpuAlloc }

/-- `del self.instances[iid]`. -/
def removeInstFromMap (s : PoolState) (iid : String) : PoolState :=
  { s with instances :=
      s.instances.filter (fun i => decide (i.instanceId ≠ iid)) }

/-- `_recycle_instance` (lines 411-476), with engine shutdown and the
recycler modelled as succeeding.  Other instances with the same `gpu_id`
share the slot: with none, the GPU is released (owner `none`); otherwise the
allocation is transferred to the first sharing instance; finally the
instance is removed from the pool (instances always carry a GPU id in this
model, as every created instance received one from the allocator). -/
def recycleInstance (s : PoolState) (iid : String) : PoolState :=
  match findInst s iid with
  | none => s
  | some inst =>
      let sharing := s.instances.filter
        (fun i => decide (i.gpuId = inst.gpuId ∧ i.instanceId ≠ iid))
      match inst.gpuId with
      | some g =>
          let s1 :=
            if sharing.isEmpty then setAlloc s g none
            else setAlloc s g (some ((sharing.headD inst).instanceId))
          removeInstFromMap s1 iid
      | none => removeInstFromMap s iid

/-- Zero-padded instance number of `f"engine_{n:03d}"`. -/
def pad3 (n : Nat) : String :=
  if n < 10 then "00" ++ toString n
  else if n < 100 then "0" ++ toString n
  else toString n

/-- `_allocate_gpu` (lines 558-574): prefer a free slot; when sharing is
allowed, accept a slot whose current owner is a cooldown instance. -/
def allocateGpu (s : PoolState) (allowShared : Bool) : Option Nat :=
  match (s.gpuAlloc.find? (fun kv => kv.2.isNone)).map Prod.fst with
  | some g => some g
  | none =>
      if allowShared then
        (s.gpuAlloc.find?
          (fun kv =>
            match kv.2 with
            | some iid =>
                match findInst s iid with
                | some inst => decide (inst.stage = EngineStage.stage2Cooldown)
                | none => false
            | none => false)).map Prod.fst
      else none

/-- `_create_instance` (lines 163-244) with both engine stages modelled as
initialising successfully: bump the counter, allocate a GPU (honouring
sharing), build the instance at the target stage, append it to the pool, and
record ownership in the allocation map only in the non-shared mode. -/
def createInstance (s : PoolState) (target : EngineStage) (allowShared : Bool)
    (now : Int) : PoolState :=
  let counter := s.instanceCounter + 1
  let iid := "engine_" ++ pad3 counter
  let s0 := { s with instanceCounter := counter }
  match allocateGpu s0 allowShared with
  | none => s0
  | some g =>
      let st := if target = EngineStage.stage2Active then EngineStage.stage2Active
                else EngineStage.stage1Ready
      let inst : EngineInstance :=
        { instanceId := iid, stage := st, activeRequests := 0, gpuId := some g,
          cooldownStartTime := none, lastRequestAt := none,
          stage2CompletedAt := if st = EngineStage.stage2Active then now else 0,
          totalRequests := 0 }
      let s1 := { s0 with instances := s0.instances ++ [inst] }
      if allowShared then s1 else setAlloc s1 g (some iid)

/-- One pass of `_monitor_lifecycle` (lines 313-339) over a snapshot of the
instance dict: an active instance may enter cooldown; a cooldown instance
due for recycling is recycled and only then is a fresh stage1 instance
created with GPU sharing allowed. -/
def monitorTick (s0 : PoolState) (now : Int) : PoolState :=
  s0.instances.foldl
    (fun s snap =>
      match findInst s snap.instanceId with
      | none => s
      | some inst =>
          if inst.stage = EngineStage.stage2Active then
            if shouldTriggerCooldown s.cooldownDelay inst now then
              triggerCooldown s inst.instanceId now
            else s
          else if inst.stage = EngineStage.stage2Cooldown then
            if shouldRecycle s.recycleDelay inst now then
              createInstance (recycleInstance s inst.instanceId)
                EngineStage.stage1Ready true now
            else s
          else s) s0

/-! ### Request dispatch (`generate` / `generate_embeddings` / `rerank`,
lines 585-790) -/

/-- The response shapes the dispatch methods produce. -/
inductive DispatchResp
  | okResp
  | errResp (code : Nat)
deriving DecidableEq, Repr

/-- Outcome of the awaited engine call. -/
inductive EngineOutcome
  | success
  | raises
deriving DecidableEq, Repr

/-- The statistics update right after an instance is selected:
`active_requests += 1`, `total_requests += 1`, `last_request_at = now`. -/
def recordDispatchStart (inst : EngineInstance) (now : Int) : EngineInstance :=
  { inst with activeRequests := inst.activeRequests + 1,
              totalRequests := inst.totalRequests + 1,
              lastRequestAt := some now }

/-- The `finally` block: `active_requests = max(0, active_requests - 1)`. -/
def finishDispatch (inst : EngineInstance) : EngineInstance :=
  { inst with activeRequests := max 0 (inst.activeRequests - 1) }

/-- Body of a dispatch method once an instance was selected: record the
start, then either fail on a missing serving component (503), an invalid
request object (400), a raised engine exception (500), or return the result
(refreshing `last_request_at`); the `finally` decrement runs on every path. -/
def dispatchWithInstance (inst : EngineInstance) (hasComponent parseOk : Bool)
    (outcome : EngineOutcome) (t1 t2 : Int) : EngineInstance × DispatchResp :=
  let i1 := recordDispatchStart inst t1
  let step :=
    if hasComponent = false then (i1, DispatchResp.errResp 503)
    else if parseOk = false then (i1, DispatchResp.errResp 400)
    else
      match outcome with
      | .success => ({ i1 with lastRequestAt := some t2 }, DispatchResp.okResp)
      | .raises => (i1, DispatchResp.errResp 500)
  (finishDispatch step.1, step.2)

/-- `generate`: non-dict payloads are rejected before any instance is
touched; an absent instance yields 503; otherwise the common dispatch body
runs (`hasComponent` is the presence of the `chat` serving component). -/
def generate (payloadIsDict : Bool) (selected : Option EngineInstance)
    (hasComponent parseOk : Bool) (outcome : EngineOutcome) (t1 t2 : Int) :
    Option EngineInstance × DispatchResp :=
  if payloadIsDict = false then (none, DispatchResp.errResp 400)
  else
    match selected with
    | none => (none, DispatchResp.errResp 503)
    | some inst =>
        let r := dispatchWithInstance inst hasComponent parseOk outcome t1 t2
        (some r.1, r.2)

/-- `generate_embeddings`: identical control flow with the `embedding`
component. -/
def generateEmbeddings (payloadIsDict : Bool) (selected : Option EngineInstance)
    (hasComponent parseOk : Bool) (outcome : EngineOutcome) (t1 t2 : Int) :
    Option EngineInstance × DispatchResp :=
  if payloadIsDict = false then (none, DispatchResp.errResp 400)
  else
    match selected with
    | none => (none, DispatchResp.errResp 503)
    | some inst =>
        let r := dispatchWithInstance inst hasComponent parseOk outcome t1 t2
        (some r.1, r.2)

/-- `rerank`: identical control flow with the `score` component. -/
def rerank (payloadIsDict : Bool) (selected : Option EngineInstance)
    (hasComponent parseOk : Bool) (outcome : EngineOutcome) (t1 t2 : Int) :
    Option EngineInstance × DispatchResp :=
  if payloadIsDict = false then (none, DispatchResp.errResp 400)
  else
    match selected with
    | none => (none, DispatchResp.errResp 503)
    | some inst =>
        let r := dispatchWithInstance inst hasComponent parseOk outcome t1 t2
        (some r.1, r.2)

/-! ### Health check (`check_health`, lines 840-847; `/health`, 1077-1096) -/

/-- The dict returned by `check_health`. -/
structure HealthStatus where
  status : String
  message : String
  ready : Bool
  instances : Nat
deriving DecidableEq, Repr

/-- `check_health`: a constant healthy/ready report carrying only the
instance count. -/
def check_health (s : PoolState) : HealthStatus :=
  { status := "healthy", message := "Stageable pool manager ready",
    ready := true, instances := s.instances.length }

/-- The `/health` endpoint status code: 200 when the report says ready,
503 otherwise (the remote call is modelled as succeeding). -/
def healthStatusCode (s : PoolState) : Nat :=
  if (check_health s).ready then 200 else 503

/-! ### Concrete states for counterexamples and traces -/

/-- C3 trace: the single active instance created at boot. -/
def c3Inst0 : EngineInstance :=
  { instanceId := "engine_001", stage := EngineStage.stage2Active,
    activeRequests := 0, gpuId := some 0, cooldownStartTime := none,
    lastRequestAt := none, stage2CompletedAt := 10, totalRequests := 0 }

/-- C3 trace: the pool right after boot (defaults `cooldown_delay = 60`,
`recycle_delay = 30`). -/
def c3Pool0 : PoolState :=
  { instances := [c3Inst0], gpuAlloc := [(0, some "engine_001")],
    instanceCounter := 1, cooldownDelay := 60, recycleDelay := 30 }

/-- C3 trace: the lifecycle tick at t = 100 (idle since t = 10). -/
def c3Pool1 : PoolState := monitorTick c3Pool0 100

/-- C3 trace: the lifecycle tick at t = 140 (in cooldown since t = 100). -/
def c3Pool2 : PoolState := monitorTick c3Pool1 140

/-- C5 states: two replicas, ring points 10 ↦ A and 20 ↦ B, default
configuration, empty load cache. -/
def c5Base : ChwblState :=
  { replicas := ["A", "B"], queueLenCache := [],
    hashToReplica := [(10, "A"), (20, "B")], sortedHashes := [10, 20],
    loadFactor := 5 / 4, maxUserMessages := 2 }

/-- C5 states: the same ring and replicas, but replica A reports load 10. -/
def c5Loaded : ChwblState := { c5Base with queueLenCache := [("A", 10)] }

/-- A constant hash function placing every cache key at point 5 (so the walk
starts at ring point 10, replica A). -/
def c5Hash : String → Nat := fun _ => 5

/-- The replica-presence set tracked alongside a mutation sequence. -/
def presAfter : List RingOp → List String → List String
  | [], pres => pres
  | RingOp.addOp rid :: rest, pres => presAfter rest (rid :: pres)
  | RingOp.removeOp rid :: rest, pres => presAfter rest (pres.erase rid)

/-- The consistency invariant the ring maintains in the absence of hash
collisions, relative to the set `pres` of present replicas. -/
structure RingInv (hashF : String → Nat) (v : Nat) (pres : List String)
    (r : Ring) : Prop where
  presNodup : pres.Nodup
  sorted : List.Sorted (· ≤ ·) r.sortedHashes
  keysNodup : (r.hashToReplica.map Prod.fst).Nodup
  entryMem : ∀ kv ∈ r.hashToReplica,
    kv.2 ∈ pres ∧ ∃ i, i ∈ List.range v ∧ kv.1 = hashF (vkey kv.2 i)
  lookupEq : ∀ rid ∈ pres, ∀ i ∈ List.range v,
    dlookup (hashF (vkey rid i)) r.hashToReplica = some rid
  countEq : ∀ q, r.sortedHashes.count q = (r.hashToReplica.map Prod.fst).count q

/-- An injective hash for the C6 witness, specified on the four virtual-node
keys that occur there. -/
def c6Hash : String → Nat := fun s =>
  if s = "A:0" then 11 else if s = "A:1" then 22
  else if s = "B:0" then 33 else if s = "B:1" then 44 else 0

/-- The mutation sequence of the C6 witness. -/
def c6Ops : List RingOp :=
  [RingOp.addOp "A", RingOp.addOp "B", RingOp.removeOp "A"]

/-- The ring points a replica's virtual nodes hash to, in node order. -/
def vpoints (hashF : String → Nat) (v : Nat) (rid : String) : List Nat :=
  (List.range v).map (fun i => hashF (vkey rid i))

/-- The map entries a replica's virtual nodes contribute, in node order. -/
def ventries (hashF : String → Nat) (v : Nat) (rid : String) :
    List (Nat × String) :=
  (List.range v).map (fun i => (hashF (vkey rid i), rid))

/-- A single-replica scheduler state for the C4 witness, with a non-zero
cached load. -/
def c4State : ChwblState :=
  { replicas := ["R"], queueLenCache := [("R", 3)],
    hashToReplica := [(7, "R")], sortedHashes := [7],
    loadFactor := 5 / 4, maxUserMessages := 2 }

section Lemmas

variable {κ α : Type} [DecidableEq κ]

/-! ### Association-list lemmas -/

theorem dlookup_dinsert_self (k : κ) (v : α) :
    ∀ l : List (κ × α), dlookup k (dinsert k v l) = some v
  | [] => by simp [dinsert, dlookup]
  | (k', v') :: rest => by
      by_cases h : k' = k
      · simp [dinsert, dlookup, h]
      · simp [dinsert, dlookup, h, dlookup_dinsert_self k v rest]

theorem dlookup_dinsert_ne (k q : κ) (v : α) (hne : q ≠ k) :
    ∀ l : List (κ × α), dlookup q (dinsert k v l) = dlookup q l
  | [] => by simp [dinsert, dlookup, Ne.symm hne]
  | (k', v') :: rest => by
      by_cases h : k' = k
      · subst h
        simp [dinsert, dlookup, Ne.symm hne]
      · simp only [dinsert, if_neg h]
        by_cases h2 : k' = q
        · simp [dlookup, h2]
        · simp [dlookup, h2, dlookup_dinsert_ne k q v hne rest]

theorem dlookup_isSome_iff (k : κ) :
    ∀ l : List (κ × α), (dlookup k l).isSome ↔ k ∈ l.map Prod.fst
  | [] => by simp [dlookup]
  | (k', v') :: rest => by
      by_cases h : k' = k
      · simp [dlookup, h]
      · simp [dlookup, h, dlookup_isSome_iff k rest, Ne.symm h]

theorem dlookup_append_left (k : κ) (v : α) :
    ∀ l1 l2 : List (κ × α), dlookup k l1 = some v →
      dlookup k (l1 ++ l2) = some v
  | [], _, h => by simp [dlookup] at h
  | (k', v') :: rest, l2, h => by
      by_cases hk : k' = k
      · simp_all [dlookup]
      · simp only [dlookup, if_neg hk] at h
        simpa [dlookup, hk] using dlookup_append_left k v rest l2 h

theorem dlookup_append_right (k : κ) :
    ∀ l1 l2 : List (κ × α), k ∉ l1.map Prod.fst →
      dlookup k (l1 ++ l2) = dlookup k l2
  | [], _, _ => rfl
  | (k', v') :: rest, l2, h => by
      have hk : k' ≠ k := by
        intro he
        exact h (by simp [he])
      have hrest : k ∉ rest.map Prod.fst := fun hm => h (by simp [hm])
      simpa [dlookup, hk] using dlookup_append_right k rest l2 hrest

theorem dinsert_eq_append (k : κ) (v : α) :
    ∀ l : List (κ × α), k ∉ l.map Prod.fst → dinsert k v l = l ++ [(k, v)]
  | [], _ => rfl
  | (k', v') :: rest, h => by
      have hk : k' ≠ k := by
        intro he
        exact h (by simp [he])
      have hrest : k ∉ rest.map Prod.fst := fun hm => h (by simp [hm])
      simp [dinsert, hk, dinsert_eq_append k v rest hrest]

theorem dlookup_all_same (k : κ) (v : α) :
    ∀ l : List (κ × α), (∀ kv ∈ l, kv.2 = v) → k ∈ l.map Prod.fst →
      dlookup k l = some v
  | [], _, hm => by simp at hm
  | (k', v') :: rest, hall, hm => by
      by_cases hk : k' = k
      · have : v' = v := hall (k', v') (by simp)
        simp [dlookup, hk, this]
      · have hm' : k ∈ rest.map Prod.fst := by
          rcases List.mem_map.mp hm with ⟨kv, hkv, hfst⟩
          rcases List.mem_cons.mp hkv with h1 | h2
          · rw [h1] at hfst
            exact absurd hfst hk
          · exact List.mem_map.mpr ⟨kv, h2, hfst⟩
        simpa [dlookup, hk] using
          dlookup_all_same k v rest (fun kv hkv => hall kv (by simp [hkv])) hm'

theorem dlookup_of_mem_keysNodup (k : κ) (v : α) :
    ∀ l : List (κ × α), (l.map Prod.fst).Nodup → (k, v) ∈ l →
      dlookup k l = some v
  | [], _, hm => by simp at hm
  | (k', v') :: rest, hnd, hm => by
      rcases List.mem_cons.mp hm with h1 | h2
      · injection h1 with hk hv
        subst hk
        subst hv
        simp [dlookup]
      · have hk : k' ≠ k := by
          intro he
          have : k ∈ rest.map Prod.fst := List.mem_map.mpr ⟨(k, v), h2, rfl⟩
          simp only [List.map_cons, List.nodup_cons] at hnd
          exact hnd.1 (he ▸ this)
        have hnd' : (rest.map Prod.fst).Nodup := by
          simp only [List.map_cons, List.nodup_cons] at hnd
          exact hnd.2
        simpa [dlookup, hk] using dlookup_of_mem_keysNodup k v rest hnd' h2

end Lemmas

/-! ### C1 lemmas: the scan of the extractor equals the claim's recipe on
the quota-limited prefix -/

theorem latestSystemFrom_cons (acc : Option String) (m : Msg) (l : List Msg) :
    latestSystemFrom acc (m :: l) =
      latestSystemFrom
        (match m with
         | Msg.entry role content => if role = "system" then some content else acc
         | Msg.nondict => acc) l := rfl

theorem collectMsgs_eq (maxU : Nat) :
    ∀ (msgs : List Msg) (sys : Option String) (us : List String),
      collectMsgs maxU msgs sys us =
        (latestSystemFrom sys (quotaScan maxU us.length msgs),
         us ++ userContentsAll (quotaScan maxU us.length msgs))
  | [], sys, us => by simp [collectMsgs, quotaScan, latestSystemFrom, userContentsAll]
  | Msg.nondict :: rest, sys, us => by
      simpa [collectMsgs, quotaScan, latestSystemFrom_cons, userContentsAll]
        using collectMsgs_eq maxU rest sys us
  | Msg.entry role content :: rest, sys, us => by
      by_cases hsys : role = "system"
      · have hnu : role ≠ "user" := by simp [hsys]
        simpa [collectMsgs, quotaScan, hsys, hnu, latestSystemFrom_cons,
          userContentsAll] using collectMsgs_eq maxU rest (some content) us
      · by_cases huser : role = "user"
        · by_cases hq : maxU ≤ us.length + 1
          · simp [collectMsgs, quotaScan, hsys, huser, hq, latestSystemFrom_cons,
              latestSystemFrom, userContentsAll]
          · have := collectMsgs_eq maxU rest sys (us ++ [content])
            simp only [List.length_append, List.length_singleton] at this
            simp [collectMsgs, quotaScan, hsys, huser, hq, latestSystemFrom_cons,
              userContentsAll, this]
        · simpa [collectMsgs, quotaScan, hsys, huser, latestSystemFrom_cons,
            userContentsAll] using collectMsgs_eq maxU rest sys us

/-! ### Claim theorems -/

/-- C1 counterexample: with `max_user_messages = 2` and a system message
placed after the second user message, the source's early break never captures
the system prompt, while the claim's recipe ("latest system message anywhere
in the list") does, so the two keys differ on this payload. -/
theorem c1_counterexample :
    extract_cache_key 2 (Payload.dictP ⟨c1Msgs⟩ "P") "rid" = "user_0:u1|user_1:u2" ∧
    claimCacheKey 2 c1Msgs "P" = "system:s|user_0:u1|user_1:u2" ∧
    extract_cache_key 2 (Payload.dictP ⟨c1Msgs⟩ "P") "rid" ≠ claimCacheKey 2 c1Msgs "P" := by
  refine ⟨by decide, by decide, by decide⟩

/-- C1 (amended): for every dict payload with a `messages` list,
`extract_cache_key` returns exactly the claim's components computed over the
quota-limited prefix of the list — the scan stops at the user message that
fills the `max_user_messages` quota, the system component is the latest
system message within that prefix and is kept only when its content is
non-empty, and the fallback is `str(payload)` when no component remains (the
same holds for a list/tuple payload whose first element is that dict). -/
theorem c1_amended (maxU : Nat) (d : ReqData) (pr rid : String) :
    extract_cache_key maxU (Payload.dictP d pr) rid =
      amendedCacheKey maxU d.messages pr ∧
    extract_cache_key maxU (Payload.seqDict d pr) rid =
      amendedCacheKey maxU d.messages pr := by
  constructor <;>
    simp [extract_cache_key, extractFromData, amendedCacheKey,
      collectMsgs_eq maxU d.messages none [], latestSystemAll]

/-- C2 counterexample: with an empty candidate list and a pending request
present, `choose_replicas` does not return `[[]]` — the modulo by
`len(candidate_replicas)` raises `ZeroDivisionError`; with candidates present
and the pending request absent, the attribute access on `None` raises rather
than returning `[candidates]`. -/
theorem c2_counterexample :
    chooseReplicas (fun s => s.length) [] (some ⟨Payload.noneP, "rid"⟩) =
      Except.error RouteError.zeroDivError ∧
    chooseReplicas (fun s => s.length) ["A"] none =
      Except.error RouteError.attrError ∧
    chooseReplicas (fun s => s.length) [] (some ⟨Payload.noneP, "rid"⟩) ≠
      Except.ok [[]] := by
  refine ⟨rfl, rfl, fun h => by simp [chooseReplicas] at h⟩

/-- C2 (amended): `choose_replicas` returns the single-element group
`[[candidates[h mod len(candidates)]]]` for a non-empty candidate list and a
present pending request, where `h` hashes the payload string (the request id
when the payload is falsy); with an empty candidate list it raises
`ZeroDivisionError`, and with an absent pending request it raises
`AttributeError` — it has no guard returning `[[]]` or `[candidates]`. -/
theorem c2_amended (hashF : String → Nat) :
    (∀ cands, chooseReplicas hashF cands none = Except.error RouteError.attrError) ∧
    (∀ pr, chooseReplicas hashF [] (some pr) = Except.error RouteError.zeroDivError) ∧
    (∀ pr (c : String) cs, chooseReplicas hashF (c :: cs) (some pr) =
      Except.ok [[(c :: cs).get
        ⟨hashF (routePayloadStr pr) % (c :: cs).length,
         Nat.mod_lt _ (Nat.succ_pos cs.length)⟩]]) :=
  ⟨fun _ => rfl, fun _ => rfl, fun _ _ _ => rfl⟩

/-- C7: `on_request_completed` decrements a present cache entry to
`max(0, n - 1)` — never below zero — leaves every other replica's entry
unchanged, and is a no-op when the replica has no cache entry. -/
theorem c7_load_clamp (cache : List (String × Int)) (rid : String) :
    (dlookup rid cache = none → on_request_completed cache rid = cache) ∧
    (∀ n, dlookup rid cache = some n →
      dlookup rid (on_request_completed cache rid) = some (max 0 (n - 1)) ∧
      (0 : Int) ≤ max 0 (n - 1) ∧
      ∀ q, q ≠ rid →
        dlookup q (on_request_completed cache rid) = dlookup q cache) := by
  constructor
  · intro h
    simp [on_request_completed, h]
  · intro n h
    refine ⟨?_, le_max_left 0 (n - 1), ?_⟩
    · simp [on_request_completed, h, dlookup_dinsert_self]
    · intro q hq
      simp [on_request_completed, h, dlookup_dinsert_ne rid q _ hq]

/-- C7 witness: a cache holding load 0 for replica A stays at 0 (not -1). -/
theorem c7_load_clamp_witness :
    dlookup "A" [("A", (0 : Int))] = some 0 ∧
    dlookup "A" (on_request_completed [("A", (0 : Int))] "A") = some 0 := by
  refine ⟨by decide, ?_⟩
  have h := (c7_load_clamp [("A", (0 : Int))] "A").2 0 (by decide)
  simpa using h.1

/-- C9: in each of `generate`, `generate_embeddings` and `rerank`, once an
instance is selected the `active_requests` counter is incremented before the
engine call and decremented in the `finally` block on every exit path
(missing component, invalid request, raised exception, success), so the final
counter equals its value before the call and stays non-negative. -/
theorem c9_active_requests_balanced (inst : EngineInstance)
    (hasComponent parseOk : Bool) (outcome : EngineOutcome) (t1 t2 : Int)
    (hact : 0 ≤ inst.activeRequests) :
    ((generate true (some inst) hasComponent parseOk outcome t1 t2).1.map
        (fun i => i.activeRequests) = some inst.activeRequests) ∧
    ((generateEmbeddings true (some inst) hasComponent parseOk outcome t1 t2).1.map
        (fun i => i.activeRequests) = some inst.activeRequests) ∧
    ((rerank true (some inst) hasComponent parseOk outcome t1 t2).1.map
        (fun i => i.activeRequests) = some inst.activeRequests) ∧
    (∀ j, (generate true (some inst) hasComponent parseOk outcome t1 t2).1 = some j →
      0 ≤ j.activeRequests) := by
  have hdisp : (dispatchWithInstance inst hasComponent parseOk outcome t1 t2).1.activeRequests
      = inst.activeRequests := by
    cases hasComponent <;> cases parseOk <;> cases outcome <;>
      simp [dispatchWithInstance, recordDispatchStart, finishDispatch,
        max_eq_right hact]
  refine ⟨?_, ?_, ?_, ?_⟩
  · simp [generate, hdisp]
  · simp [generateEmbeddings, hdisp]
  · simp [rerank, hdisp]
  · intro j hj
    simp only [generate, if_neg (by simp : ¬(true = false))] at hj
    cases hj
    rw [hdisp]
    exact hact

/-- C9 witness: an idle instance dispatched through `generate` with a raised
engine exception ends with the same zero active-request count. -/
theorem c9_active_requests_balanced_witness :
    (0 : Int) ≤ c3Inst0.activeRequests ∧
    ((generate true (some c3Inst0) true true EngineOutcome.raises 1 2).1.map
        (fun i => i.activeRequests) = some c3Inst0.activeRequests) :=
  ⟨by decide,
   (c9_active_requests_balanced c3Inst0 true true EngineOutcome.raises 1 2
      (by decide)).1⟩

/-- C10: `check_health` reports status "healthy", `ready = True` and only the
instance count for every pool state — including an empty pool or a pool whose
instances are all in the ERROR stage — so the `/health` endpoint always
answers 200 and never reports unready based on engine stage. -/
theorem c10_health_always_ready (s : PoolState) :
    (check_health s).status = "healthy" ∧
    (check_health s).ready = true ∧
    (check_health s).instances = s.instances.length ∧
    healthStatusCode s = 200 :=
  ⟨rfl, rfl, rfl, rfl⟩

/-! ### Pool-manager lemmas -/

theorem find_map_if_aux (iid : String) (f : EngineInstance → EngineInstance)
    (hf : ∀ i, (f i).instanceId = i.instanceId) :
    ∀ l : List EngineInstance,
      List.find? (fun i => decide (i.instanceId = iid))
          (l.map (fun i => if i.instanceId = iid then f i else i)) =
        (List.find? (fun i => decide (i.instanceId = iid)) l).map f
  | [] => rfl
  | a :: l => by
      by_cases h : a.instanceId = iid
      · simp [List.find?_cons, h, hf]
      · simp [List.find?_cons, h, find_map_if_aux iid f hf l]

theorem findInst_updateInst (s : PoolState) (iid : String)
    (f : EngineInstance → EngineInstance)
    (hf : ∀ i, (f i).instanceId = i.instanceId) :
    findInst (updateInst s iid f) iid = (findInst s iid).map f := by
  unfold findInst updateInst
  exact find_map_if_aux iid f hf s.instances

/-! ### CHWBL walk lemmas -/

theorem ringSearch_snd_lt (l : List Nat) (hl : l ≠ []) (k : Nat) :
    (ringSearch l k).2 < l.length := by
  show (if l.length ≤ bisectLeft l k then 0 else bisectLeft l k) < l.length
  by_cases h : l.length ≤ bisectLeft l k
  · simpa [h] using List.length_pos.mpr hl
  · simpa [h] using Nat.lt_of_not_le h

theorem ringSearch_fst_mem (l : List Nat) (hl : l ≠ []) (k : Nat) :
    (ringSearch l k).1 ∈ l := by
  have hidx := ringSearch_snd_lt l hl k
  show l.getD (ringSearch l k).2 0 ∈ l
  rw [List.getD_eq_get?, List.get?_eq_get hidx]
  exact List.get_mem l _ _

theorem chooseLoop_single (s : ChwblState) (snap : List (String × Int))
    (r : String) (hrep : s.replicas = [r])
    (hmap : ∀ p ∈ s.sortedHashes, dlookup p s.hashToReplica = some r) :
    ∀ fuel idx, idx < s.sortedHashes.length →
      chooseLoop s snap (fuel + 2) idx [] none = ChooseResult.replica r := by
  intro fuel idx hidx
  have hmem : (s.sortedHashes.get? idx).getD 0 ∈ s.sortedHashes := by
    rw [List.get?_eq_get hidx]
    exact List.get_mem _ _ _
  have hcur := hmap _ hmem
  rw [chooseLoop, hcur]
  by_cases hcl : checkLoadWithSnapshot s r snap
  · simp [hrep, hcl]
  · simp only [hrep, hcl]
    simp only [List.length_nil, List.length_cons, Nat.zero_lt_succ, if_true,
      List.not_mem_nil, List.mem_singleton, Bool.false_eq_true, if_false,
      Nat.lt_irrefl, ite_true, ite_false]
    rw [chooseLoop]
    simp [hrep]

/-! ### Claim theorems for the lifecycle and the CHWBL scheduler -/

/-- C3: evaluation of the pool-manager lifecycle at the failing input — a
single active instance, idle past `cooldown_delay` at the first tick and past
`recycle_delay` at the second.  Entering cooldown creates no stage1 standby
(that call is commented out in `_trigger_cooldown`); at recycle time no
instance shares the GPU, so the slot is released to unassigned, and the
standby created immediately afterwards (in shared mode) is never written into
`gpu_allocation`: the slot's owner ends as `None`, not the standby. -/
theorem c3_lifecycle_trace :
    (findInst c3Pool1 "engine_001").map (fun i => i.stage) =
      some EngineStage.stage2Cooldown ∧
    c3Pool1.instances.all
      (fun i => decide (i.stage ≠ EngineStage.stage1Ready)) = true ∧
    findInst c3Pool2 "engine_001" = none ∧
    (findInst c3Pool2 "engine_002").map (fun i => (i.stage, i.gpuId)) =
      some (EngineStage.stage1Ready, some 0) ∧
    dlookup 0 c3Pool2.gpuAlloc = some none := by
  refine ⟨by decide, by decide, by decide, by decide, by decide⟩

/-- C5 counterexample: two scheduler states that agree on the extracted cache
key and on the entire ring state (identical `hash_to_replica` and
`sorted_hashes`) but hold different load snapshots produce different
selections, so agreement on cache key and ring state alone does not determine
the result. -/
theorem c5_counterexample :
    c5Base.hashToReplica = c5Loaded.hashToReplica ∧
    c5Base.sortedHashes = c5Loaded.sortedHashes ∧
    chooseReplicaForRequest c5Hash c5Base Payload.noneP "r" =
      ChooseResult.replica "A" ∧
    chooseReplicaForRequest c5Hash c5Loaded Payload.noneP "r" =
      ChooseResult.replica "B" := by
  refine ⟨rfl, rfl, ?_, ?_⟩ <;>
    norm_num [chooseReplicaForRequest, c5Base, c5Loaded, c5Hash,
      extract_cache_key, ringSearch, bisectLeft, chooseFuel,
      createLoadSnapshot, dlookup, chooseLoop, checkLoadWithSnapshot,
      List.takeWhile, show ("B" : String) ≠ "A" from by decide,
      show ("A" : String) ≠ "B" from by decide]

/-- C5 (amended): the routing operation is deterministic once the load
snapshot is fixed as well — two invocations on the same scheduler state
(same replica map, queue-length cache, and ring) whose payloads extract equal
cache keys yield the same result. -/
theorem c5_deterministic (hashF : String → Nat) (s : ChwblState)
    (p1 : Payload) (rid1 : String) (p2 : Payload) (rid2 : String)
    (hkey : extract_cache_key s.maxUserMessages p1 rid1 =
      extract_cache_key s.maxUserMessages p2 rid2) :
    chooseReplicaForRequest hashF s p1 rid1 =
      chooseReplicaForRequest hashF s p2 rid2 := by
  unfold chooseReplicaForRequest
  rw [hkey]

/-- C5 witness: a falsy payload with request id "x" and a truthy non-dict
payload printing as "x" extract the same cache key, hence route alike. -/
theorem c5_deterministic_witness :
    extract_cache_key c5Base.maxUserMessages Payload.noneP "x" =
      extract_cache_key c5Base.maxUserMessages (Payload.otherP "x") "y" ∧
    chooseReplicaForRequest c5Hash c5Base Payload.noneP "x" =
      chooseReplicaForRequest c5Hash c5Base (Payload.otherP "x") "y" :=
  ⟨rfl, c5_deterministic c5Hash c5Base Payload.noneP "x" (Payload.otherP "x") "y" rfl⟩

/-- C8: for the engine records the monitor actually sees — an active engine
has a positive `stage2_completed_at`, its `last_request_at` is unset or at
least `stage2_completed_at`, and its request counter is non-negative — the
cooldown trigger fires exactly when `active_requests == 0` and
`now − max(last_request_at, stage2_completed_at) > cooldown_delay`, and
`_trigger_cooldown` then records the cooldown start timestamp and moves the
stage to `STAGE2_COOLDOWN`. -/
theorem c8_cooldown_trigger (inst : EngineInstance) (now delay : Int)
    (hact : 0 ≤ inst.activeRequests)
    (hs2 : 0 < inst.stage2CompletedAt)
    (hlra : inst.lastRequestAt = none ∨
      ∃ t, inst.lastRequestAt = some t ∧ inst.stage2CompletedAt ≤ t) :
    (shouldTriggerCooldown delay inst now = true ↔
      (inst.activeRequests = 0 ∧
        delay < now - max (inst.lastRequestAt.getD inst.stage2CompletedAt)
          inst.stage2CompletedAt)) ∧
    (∀ s iid, findInst s iid = some inst →
      inst.stage = EngineStage.stage2Active →
      (findInst (triggerCooldown s iid now) iid).map
          (fun i => (i.stage, i.cooldownStartTime)) =
        some (EngineStage.stage2Cooldown, some now)) := by
  have hla : lastActivity inst now =
      max (inst.lastRequestAt.getD inst.stage2CompletedAt)
        inst.stage2CompletedAt := by
    rcases hlra with h | ⟨t, ht, hle⟩
    · have hne : inst.stage2CompletedAt ≠ 0 := ne_of_gt hs2
      simp [lastActivity, h, hne]
    · have ht0 : t ≠ 0 := ne_of_gt (lt_of_lt_of_le hs2 hle)
      simp [lastActivity, ht, ht0, max_eq_left hle]
  constructor
  · unfold shouldTriggerCooldown
    rw [hla]
    by_cases hpos : 0 < inst.activeRequests
    · rw [if_pos hpos]
      constructor
      · intro h
        exact absurd h (by simp)
      · rintro ⟨h0, -⟩
        exfalso
        rw [h0] at hpos
        exact lt_irrefl 0 hpos
    · have h0 : inst.activeRequests = 0 := le_antisymm (not_lt.mp hpos) hact
      rw [if_neg hpos]
      simp [h0]
  · intro s iid hfind hstage
    unfold triggerCooldown
    rw [hfind]
    dsimp only
    rw [if_pos hstage,
      findInst_updateInst s iid
        (fun i => { i with stage := EngineStage.stage2Cooldown,
                           cooldownStartTime := some now })
        (fun i => rfl),
      hfind]
    rfl

/-- C8 witness: the boot instance (idle since t = 10) at t = 100 with
`cooldown_delay = 60` satisfies the side conditions and triggers. -/
theorem c8_cooldown_trigger_witness :
    ((0 : Int) ≤ c3Inst0.activeRequests ∧ (0 : Int) < c3Inst0.stage2CompletedAt) ∧
    (shouldTriggerCooldown 60 c3Inst0 100 = true ↔
      (c3Inst0.activeRequests = 0 ∧
        (60 : Int) < 100 - max (c3Inst0.lastRequestAt.getD c3Inst0.stage2CompletedAt)
          c3Inst0.stage2CompletedAt)) :=
  ⟨⟨by decide, by decide⟩,
   (c8_cooldown_trigger c3Inst0 100 60 (by decide) (by decide) (Or.inl rfl)).1⟩

/-- C4: a scheduler state holding exactly one replica — on the ring and in
the replica map — returns that replica for every payload, request id, hash
function and cached load; moreover with `load_factor = 1.25` and a
non-negative cached load the bounded-load check itself accepts the sole
replica. -/
theorem c4_single_replica (hashF : String → Nat) (s : ChwblState) (r : String)
    (hrep : s.replicas = [r])
    (hring : s.sortedHashes ≠ [])
    (hmap : ∀ p ∈ s.sortedHashes, dlookup p s.hashToReplica = some r)
    (hlf : s.loadFactor = 5 / 4)
    (payload : Payload) (requestId : String) :
    chooseReplicaForRequest hashF s payload requestId = ChooseResult.replica r ∧
    (0 ≤ ((dlookup r s.queueLenCache).getD 0 : Int) →
      checkLoadWithSnapshot s r (createLoadSnapshot s) = true) := by
  constructor
  · unfold chooseReplicaForRequest
    have h1 : ¬(s.replicas.length = 0 ∨ s.sortedHashes.length = 0) := by
      push_neg
      refine ⟨by simp [hrep], fun h => hring (List.length_eq_zero.mp h)⟩
    rw [if_neg h1]
    have hstart := hmap _ (ringSearch_fst_mem _ hring (hashF
      (extract_cache_key s.maxUserMessages payload requestId)))
    rw [hstart]
    have hfuel : ∃ fuel, chooseFuel s = fuel + 2 := ⟨_, rfl⟩
    rcases hfuel with ⟨fuel, hf⟩
    rw [hf]
    exact chooseLoop_single s (createLoadSnapshot s) r hrep hmap fuel _
      (ringSearch_snd_lt _ hring _)
  · intro hload
    have hsnap : dlookup r (createLoadSnapshot s) =
        some ((dlookup r s.queueLenCache).getD 0) := by
      simp [createLoadSnapshot, hrep, dlookup]
    have hsum : ((createLoadSnapshot s).map Prod.snd).sum =
        (dlookup r s.queueLenCache).getD 0 := by
      simp [createLoadSnapshot, hrep]
    have hlen : s.replicas.length = 1 := by
      rw [hrep]
      rfl
    unfold checkLoadWithSnapshot
    rw [hsnap, hsum, hlen, hlf, decide_eq_true_iff]
    simp only [Option.getD_some, Nat.cast_one, div_one]
    have hq : (0 : ℚ) ≤ (((dlookup r s.queueLenCache).getD 0 : Int) : ℚ) := by
      exact_mod_cast hload
    linarith

/-- C4 witness: a one-replica state with cached load 3 routes to the replica
and passes the bounded-load check. -/
theorem c4_single_replica_witness :
    (c4State.replicas = ["R"] ∧ c4State.sortedHashes ≠ [] ∧
      c4State.loadFactor = 5 / 4) ∧
    chooseReplicaForRequest (fun t => t.length) c4State Payload.noneP "rid" =
      ChooseResult.replica "R" ∧
    checkLoadWithSnapshot c4State "R" (createLoadSnapshot c4State) = true := by
  have h := c4_single_replica (fun t => t.length) c4State "R" rfl (by decide)
    (by decide) rfl Payload.noneP "rid"
  exact ⟨⟨rfl, by decide, rfl⟩, h.1, h.2 (by decide)⟩

/-! ### Sorted-list lemmas for the hash ring -/

theorem insortRight_perm (x : Nat) :
    ∀ l : List Nat, (insortRight x l).Perm (x :: l)
  | [] => List.Perm.refl _
  | y :: rest => by
      by_cases h : y ≤ x
      · rw [insortRight, if_pos h]
        exact ((insortRight_perm x rest).cons y).trans (List.Perm.swap x y rest)
      · rw [insortRight, if_neg h]

theorem sorted_insortRight (x : Nat) :
    ∀ l : List Nat, List.Sorted (· ≤ ·) l →
      List.Sorted (· ≤ ·) (insortRight x l)
  | [], _ => by simp [insortRight]
  | y :: rest, h => by
      rw [List.sorted_cons] at h
      by_cases hle : y ≤ x
      · rw [insortRight, if_pos hle, List.sorted_cons]
        refine ⟨?_, sorted_insortRight x rest h.2⟩
        intro b hb
        rcases List.mem_cons.mp ((insortRight_perm x rest).mem_iff.mp hb)
          with h1 | h2
        · exact h1 ▸ hle
        · exact h.1 b h2
      · rw [insortRight, if_neg hle, List.sorted_cons]
        refine ⟨?_, List.sorted_cons.mpr ⟨h.1, h.2⟩⟩
        intro b hb
        rcases List.mem_cons.mp hb with h1 | h2
        · exact h1 ▸ le_of_not_le hle
        · exact le_trans (le_of_not_le hle) (h.1 b h2)

theorem removePoint_eq_erase (p : Nat) :
    ∀ l : List Nat, List.Sorted (· ≤ ·) l → removePoint p l = l.erase p
  | [], _ => rfl
  | a :: t, h => by
      rw [List.sorted_cons] at h
      have IH := removePoint_eq_erase p t h.2
      by_cases hlt : a < p
      · have hne : a ≠ p := ne_of_lt hlt
        have hb : bisectLeft (a :: t) p = bisectLeft t p + 1 := by
          simp [bisectLeft, List.takeWhile, hlt]
        unfold removePoint
        unfold removePoint at IH
        rw [hb, List.get?_cons_succ, List.erase_cons_tail]
        · cases hget : t.get? (bisectLeft t p) with
          | none =>
              rw [hget] at IH
              simp only [hget]
              rw [← IH]
          | some w =>
              rw [hget] at IH
              simp only [hget]
              by_cases hw : w = p
              · simp only [if_pos hw] at IH
                simp only [if_pos hw, List.eraseIdx_cons_succ, ← IH]
              · simp only [if_neg hw] at IH
                simp only [if_neg hw, ← IH]
        · simp [hne]
      · have hb : bisectLeft (a :: t) p = 0 := by
          simp [bisectLeft, List.takeWhile, hlt]
        unfold removePoint
        rw [hb]
        simp only [List.get?_cons_zero]
        by_cases ha : a = p
        · subst ha
          simp [List.eraseIdx]
        · have hap : p < a := lt_of_le_of_ne (not_lt.mp hlt) (Ne.symm ha)
          have hnm : p ∉ a :: t := by
            intro hm
            rcases List.mem_cons.mp hm with h1 | h2
            · exact ha h1.symm
            · exact absurd (h.1 p h2) (not_le.mpr hap)
          rw [List.erase_of_not_mem hnm]
          simp [ha]

theorem sorted_removePoint (p : Nat) (l : List Nat)
    (h : List.Sorted (· ≤ ·) l) :
    List.Sorted (· ≤ ·) (removePoint p l) := by
  rw [removePoint_eq_erase p l h]
  exact h.sublist (List.erase_sublist p l)

theorem sorted_foldl_removePoint :
    ∀ (pts l : List Nat), List.Sorted (· ≤ ·) l →
      List.Sorted (· ≤ ·) (pts.foldl (fun acc p => removePoint p acc) l)
  | [], _, h => h
  | p :: pts, l, h =>
      sorted_foldl_removePoint pts (removePoint p l) (sorted_removePoint p l h)

theorem count_foldl_removePoint :
    ∀ (pts l : List Nat), List.Sorted (· ≤ ·) l → ∀ q,
      (pts.foldl (fun acc p => removePoint p acc) l).count q =
        l.count q - pts.count q
  | [], l, _, q => by simp
  | p :: pts, l, h, q => by
      have IH := count_foldl_removePoint pts (removePoint p l)
        (sorted_removePoint p l h) q
      rw [List.foldl_cons, IH, removePoint_eq_erase p l h, List.count_erase,
        List.count_cons]
      by_cases hq : q = p
      · subst hq
        simp
        omega
      · simp [hq, Ne.symm hq]

/-! ### Dict-removal lemmas for the hash ring -/

theorem ddelete_eq_filter (k : Nat) :
    ∀ l : List (Nat × String), (l.map Prod.fst).Nodup →
      ddelete k l = l.filter (fun kv => decide (kv.1 ≠ k))
  | [], _ => rfl
  | (k', v) :: rest, hnd => by
      simp only [List.map_cons, List.nodup_cons] at hnd
      by_cases h : k' = k
      · subst h
        rw [ddelete, if_pos rfl]
        have hall : rest.filter (fun kv => decide (kv.1 ≠ k')) = rest := by
          rw [List.filter_eq_self]
          intro kv hkv
          simp only [decide_eq_true_iff]
          intro he
          exact hnd.1 (he ▸ List.mem_map.mpr ⟨kv, hkv, rfl⟩)
        simp only [decide_not] at hall
        simp [List.filter_cons, hall]
      · rw [ddelete, if_neg h]
        have IH := ddelete_eq_filter k rest hnd.2
        simp only [decide_not] at IH
        simp [List.filter_cons, h, IH]

theorem foldl_ddelete_eq_filter :
    ∀ (pts : List Nat) (l : List (Nat × String)), (l.map Prod.fst).Nodup →
      pts.foldl (fun d p => ddelete p d) l =
        l.filter (fun kv => decide (kv.1 ∉ pts))
  | [], l, _ =>
      (List.filter_eq_self.mpr (fun kv _ => by simp)).symm
  | p :: pts, l, hnd => by
      rw [List.foldl_cons, ddelete_eq_filter p l hnd]
      have hnd' : ((l.filter (fun kv => decide (kv.1 ≠ p))).map Prod.fst).Nodup :=
        hnd.sublist (List.Sublist.map Prod.fst (List.filter_sublist l))
      rw [foldl_ddelete_eq_filter pts _ hnd', List.filter_filter]
      apply List.filter_congr
      intro kv _
      by_cases h1 : kv.1 = p <;> by_cases h2 : kv.1 ∈ pts <;>
        simp [h1, h2]

theorem count_keys_filter (pts : List Nat) :
    ∀ (l : List (Nat × String)) (q : Nat),
      ((l.filter (fun kv => decide (kv.1 ∉ pts))).map Prod.fst).count q =
        if q ∈ pts then 0 else (l.map Prod.fst).count q
  | [], q => by simp
  | (k, v) :: rest, q => by
      have IH := count_keys_filter pts rest q
      simp only [decide_not] at IH
      by_cases hk : k ∈ pts
      · by_cases hq : q ∈ pts
        · simp [List.filter_cons, hk, hq, IH]
        · have hqk : q ≠ k := fun he => hq (he ▸ hk)
          simp [List.filter_cons, hk, hq, hqk, IH, List.count_cons]
      · by_cases hq : q ∈ pts
        · have hqk : q ≠ k := fun he => hk (he ▸ hq)
          simp [List.filter_cons, hk, hq, hqk, IH, List.count_cons]
        · simp [List.filter_cons, hk, hq, IH, List.count_cons]

theorem dlookup_filter_not_mem (pts : List Nat) (k : Nat) (hk : k ∉ pts) :
    ∀ l : List (Nat × String),
      dlookup k (l.filter (fun kv => decide (kv.1 ∉ pts))) = dlookup k l
  | [] => rfl
  | (k', v) :: rest => by
      have IH := dlookup_filter_not_mem pts k hk rest
      simp only [decide_not] at IH
      by_cases hmem : k' ∈ pts
      · have hne : k' ≠ k := fun he => hk (he ▸ hmem)
        simp [List.filter_cons, hmem, IH, dlookup, hne]
      · by_cases he : k' = k
        · simp [List.filter_cons, hmem, dlookup, he, hk]
        · simp [List.filter_cons, hmem, dlookup, he, IH]

/-! ### Characterization of `_add_replica_to_ring` without collisions -/

theorem ventries_map_fst (hashF : String → Nat) (v : Nat) (rid : String) :
    (ventries hashF v rid).map Prod.fst = vpoints hashF v rid := by
  simp [ventries, vpoints, List.map_map, Function.comp]

theorem addRing_chars (hashF : String → Nat) (rid : String) :
    ∀ (v : Nat) (r : Ring),
      (∀ i ∈ List.range v, hashF (vkey rid i) ∉ r.hashToReplica.map Prod.fst) →
      (∀ i ∈ List.range v, ∀ j ∈ List.range v,
        hashF (vkey rid i) = hashF (vkey rid j) → i = j) →
      List.Sorted (· ≤ ·) r.sortedHashes →
      (addReplicaToRing hashF v rid r).hashToReplica =
          r.hashToReplica ++ ventries hashF v rid ∧
      List.Sorted (· ≤ ·) (addReplicaToRing hashF v rid r).sortedHashes ∧
      ∀ q, (addReplicaToRing hashF v rid r).sortedHashes.count q =
        r.sortedHashes.count q + (vpoints hashF v rid).count q
  | 0, r, _, _, hsort => by
      refine ⟨?_, hsort, ?_⟩ <;> simp [addReplicaToRing, ventries, vpoints]
  | v + 1, r, hfresh, hself, hsort => by
      have hmemsub : ∀ i ∈ List.range v, i ∈ List.range (v + 1) := by
        intro i hi
        rw [List.mem_range] at hi ⊢
        omega
      have IH := addRing_chars hashF rid v r
        (fun i hi => hfresh i (hmemsub i hi))
        (fun i hi j hj => hself i (hmemsub i hi) j (hmemsub j hj))
        hsort
      have hvmem : v ∈ List.range (v + 1) := by
        rw [List.mem_range]
        omega
      have hstep : addReplicaToRing hashF (v + 1) rid r =
          { hashToReplica := dinsert (hashF (vkey rid v)) rid
              (addReplicaToRing hashF v rid r).hashToReplica
            sortedHashes := insortRight (hashF (vkey rid v))
              (addReplicaToRing hashF v rid r).sortedHashes } := by
        unfold addReplicaToRing
        rw [List.range_succ, List.foldl_append, List.foldl_cons, List.foldl_nil]
      have hnewfresh : hashF (vkey rid v) ∉
          (addReplicaToRing hashF v rid r).hashToReplica.map Prod.fst := by
        rw [IH.1, List.map_append, ventries_map_fst]
        intro hm
        rcases List.mem_append.mp hm with h1 | h2
        · exact hfresh v hvmem h1
        · rcases List.mem_map.mp h2 with ⟨j, hj, hje⟩
          have := hself v hvmem j (hmemsub j hj) hje.symm
          rw [List.mem_range] at hj
          omega
      have hvent : ventries hashF (v + 1) rid =
          ventries hashF v rid ++ [(hashF (vkey rid v), rid)] := by
        simp [ventries, List.range_succ]
      have hvpts : vpoints hashF (v + 1) rid =
          vpoints hashF v rid ++ [hashF (vkey rid v)] := by
        simp [vpoints, List.range_succ]
      refine ⟨?_, ?_, ?_⟩
      · rw [hstep]
        show dinsert (hashF (vkey rid v)) rid
            (addReplicaToRing hashF v rid r).hashToReplica =
          r.hashToReplica ++ ventries hashF (v + 1) rid
        rw [dinsert_eq_append _ _ _ hnewfresh, IH.1, hvent, List.append_assoc]
      · rw [hstep]
        exact sorted_insortRight _ _ IH.2.1
      · intro q
        rw [hstep]
        show (insortRight (hashF (vkey rid v))
            (addReplicaToRing hashF v rid r).sortedHashes).count q = _
        rw [(insortRight_perm _ _).count_eq, List.count_cons, IH.2.2 q, hvpts,
          List.count_append]
        simp [List.count_cons]
        omega

/-! ### Preservation of the ring invariant -/

theorem ringInv_add (hashF : String → Nat) (v : Nat) (pres : List String)
    (r : Ring) (rid : String) (inv : RingInv hashF v pres r)
    (hnot : rid ∉ pres)
    (hfresh : ∀ i ∈ List.range v, ∀ r2 ∈ pres, ∀ j ∈ List.range v,
      hashF (vkey rid i) ≠ hashF (vkey r2 j))
    (hself : ∀ i ∈ List.range v, ∀ j ∈ List.range v,
      hashF (vkey rid i) = hashF (vkey rid j) → i = j) :
    RingInv hashF v (rid :: pres) (addReplicaToRing hashF v rid r) := by
  have hfreshk : ∀ i ∈ List.range v,
      hashF (vkey rid i) ∉ r.hashToReplica.map Prod.fst := by
    intro i hi hm
    rcases List.mem_map.mp hm with ⟨kv, hkv, hfst⟩
    rcases inv.entryMem kv hkv with ⟨hp, j, hj, hpt⟩
    exact hfresh i hi kv.2 hp j hj (hfst.symm.trans hpt)
  have hchars := addRing_chars hashF rid v r hfreshk hself inv.sorted
  have hkeys : (addReplicaToRing hashF v rid r).hashToReplica.map Prod.fst =
      r.hashToReplica.map Prod.fst ++ vpoints hashF v rid := by
    rw [hchars.1, List.map_append, ventries_map_fst]
  have hvnodup : (vpoints hashF v rid).Nodup :=
    List.Nodup.map_on
      (fun i hi j hj he => hself i hi j hj he) (List.nodup_range v)
  have hdisj : ∀ a ∈ r.hashToReplica.map Prod.fst,
      a ∉ vpoints hashF v rid := by
    intro a ha hav
    rcases List.mem_map.mp hav with ⟨i, hi, rfl⟩
    exact hfreshk i hi ha
  refine ⟨List.nodup_cons.mpr ⟨hnot, inv.presNodup⟩, hchars.2.1, ?_, ?_, ?_, ?_⟩
  · rw [hkeys]
    exact List.nodup_append.mpr ⟨inv.keysNodup, hvnodup, hdisj⟩
  · intro kv hkv
    rw [hchars.1] at hkv
    rcases List.mem_append.mp hkv with h | h
    · rcases inv.entryMem kv h with ⟨hp, j, hj, hpt⟩
      exact ⟨List.mem_cons_of_mem rid hp, j, hj, hpt⟩
    · rcases List.mem_map.mp h with ⟨i, hi, rfl⟩
      exact ⟨List.mem_cons_self rid pres, i, hi, rfl⟩
  · intro r2 hr2 i hi
    rw [hchars.1]
    rcases List.mem_cons.mp hr2 with h | h
    · subst h
      rw [dlookup_append_right _ _ _ (hfreshk i hi)]
      apply dlookup_all_same
      · intro kv hkv
        rcases List.mem_map.mp hkv with ⟨j, _, rfl⟩
        rfl
      · rw [ventries_map_fst]
        exact List.mem_map.mpr ⟨i, hi, rfl⟩
    · exact dlookup_append_left _ _ _ _ (inv.lookupEq r2 h i hi)
  · intro q
    rw [hchars.2.2 q, hkeys, List.count_append, inv.countEq q]

theorem removeRing_fold :
    ∀ (pts : List Nat) (r : Ring),
      (pts.foldl (fun racc p =>
        ({ hashToReplica := ddelete p racc.hashToReplica
           sortedHashes := removePoint p racc.sortedHashes } : Ring)) r) =
      { hashToReplica := pts.foldl (fun d p => ddelete p d) r.hashToReplica
        sortedHashes :=
          pts.foldl (fun acc p => removePoint p acc) r.sortedHashes }
  | [], r => rfl
  | p :: pts, r => by
      rw [List.foldl_cons, List.foldl_cons, List.foldl_cons]
      exact removeRing_fold pts _

theorem ringInv_remove (hashF : String → Nat) (v : Nat) (pres : List String)
    (r : Ring) (rid : String) (inv : RingInv hashF v pres r)
    (hmem : rid ∈ pres) :
    RingInv hashF v (pres.erase rid) (removeReplicaFromRing rid r) := by
  have hcomp : removeReplicaFromRing rid r =
      { hashToReplica := (replicaPoints r rid).foldl
          (fun d p => ddelete p d) r.hashToReplica
        sortedHashes := (replicaPoints r rid).foldl
          (fun acc p => removePoint p acc) r.sortedHashes } := by
    unfold removeReplicaFromRing
    exact removeRing_fold (replicaPoints r rid) r
  have hsub : List.Sublist (replicaPoints r rid)
      (r.hashToReplica.map Prod.fst) :=
    List.Sublist.map Prod.fst
      (List.filter_sublist r.hashToReplica)
  have hptsnodup : (replicaPoints r rid).Nodup := inv.keysNodup.sublist hsub
  have hpts_iff : ∀ p, p ∈ replicaPoints r rid ↔ (p, rid) ∈ r.hashToReplica := by
    intro p
    constructor
    · intro hp
      rcases List.mem_map.mp hp with ⟨kv, hkv, hfst⟩
      rcases List.mem_filter.mp hkv with ⟨hkvd, hv⟩
      have hv2 : kv.2 = rid := by simpa using hv
      have hkvp : kv = (p, rid) := by
        cases kv
        simp_all
      rw [← hkvp]
      exact hkvd
    · intro hp
      exact List.mem_map.mpr
        ⟨(p, rid), List.mem_filter.mpr ⟨hp, by simp⟩, rfl⟩
  have hdict : (removeReplicaFromRing rid r).hashToReplica =
      r.hashToReplica.filter
        (fun kv => decide (kv.1 ∉ replicaPoints r rid)) := by
    rw [hcomp]
    exact foldl_ddelete_eq_filter (replicaPoints r rid) r.hashToReplica
      inv.keysNodup
  have hsorted : (removeReplicaFromRing rid r).sortedHashes =
      (replicaPoints r rid).foldl
        (fun acc p => removePoint p acc) r.sortedHashes := by
    rw [hcomp]
  refine ⟨inv.presNodup.erase rid, ?_, ?_, ?_, ?_, ?_⟩
  · rw [hsorted]
    exact sorted_foldl_removePoint _ _ inv.sorted
  · rw [hdict]
    exact inv.keysNodup.sublist
      (List.Sublist.map Prod.fst (List.filter_sublist r.hashToReplica))
  · intro kv hkv
    rw [hdict] at hkv
    rcases List.mem_filter.mp hkv with ⟨hkvd, hnp⟩
    have hnp2 : kv.1 ∉ replicaPoints r rid := by simpa using hnp
    rcases inv.entryMem kv hkvd with ⟨hp, j, hj, hpt⟩
    have hne : kv.2 ≠ rid := by
      intro he
      apply hnp2
      rw [hpts_iff]
      have hkvp : kv = (kv.1, rid) := by
        cases kv
        simp_all
      rw [← hkvp]
      exact hkvd
    exact ⟨(inv.presNodup.mem_erase_iff).mpr ⟨hne, hp⟩, j, hj, hpt⟩
  · intro r2 hr2 i hi
    rcases (inv.presNodup.mem_erase_iff).mp hr2 with ⟨hne, hr2p⟩
    have hq_not : hashF (vkey r2 i) ∉ replicaPoints r rid := by
      intro hq
      have hlook := dlookup_of_mem_keysNodup _ rid r.hashToReplica
        inv.keysNodup ((hpts_iff _).mp hq)
      have hlook2 := inv.lookupEq r2 hr2p i hi
      rw [hlook] at hlook2
      exact hne (Option.some.inj hlook2).symm
    rw [hdict, dlookup_filter_not_mem _ _ hq_not]
    exact inv.lookupEq r2 hr2p i hi
  · intro q
    have hcnt_sorted : (removeReplicaFromRing rid r).sortedHashes.count q =
        r.sortedHashes.count q - (replicaPoints r rid).count q := by
      rw [hsorted]
      exact count_foldl_removePoint _ _ inv.sorted q
    have hcnt_keys :
        ((removeReplicaFromRing rid r).hashToReplica.map Prod.fst).count q =
        if q ∈ replicaPoints r rid then 0
        else (r.hashToReplica.map Prod.fst).count q := by
      rw [hdict]
      exact count_keys_filter _ _ q
    rw [hcnt_sorted, hcnt_keys, inv.countEq q]
    by_cases hq : q ∈ replicaPoints r rid
    · have h1 : (replicaPoints r rid).count q = 1 :=
        List.count_eq_one_of_mem hptsnodup hq
      have hqk : q ∈ r.hashToReplica.map Prod.fst := by
        rcases (hpts_iff q).mp hq with hd
        exact List.mem_map.mpr ⟨(q, rid), hd, rfl⟩
      have h2 : (r.hashToReplica.map Prod.fst).count q = 1 :=
        List.count_eq_one_of_mem inv.keysNodup hqk
      rw [h1, h2, if_pos hq]
    · rw [List.count_eq_zero.mpr hq, if_neg hq]
      omega

/-! ### The invariant along arbitrary well-formed mutation sequences -/

theorem ringInv_empty (hashF : String → Nat) (v : Nat) :
    RingInv hashF v [] emptyRing := by
  refine ⟨List.nodup_nil, List.sorted_nil, List.nodup_nil, ?_, ?_, ?_⟩
  · intro kv hkv
    simp [emptyRing] at hkv
  · intro rid hrid
    simp at hrid
  · intro q
    rfl

theorem ringInv_applyOps (hashF : String → Nat) (v : Nat) :
    ∀ (ops : List RingOp) (pres : List String) (r : Ring) (u : List String),
      KeyInj hashF v u → (∀ x ∈ pres, x ∈ u) → (∀ x ∈ ridsOf ops, x ∈ u) →
      wfOps ops pres = true → RingInv hashF v pres r →
      RingInv hashF v (presAfter ops pres) (applyOps hashF v ops r)
  | [], _, _, _, _, _, _, _, inv => inv
  | RingOp.addOp rid :: rest, pres, r, u, hinj, hpres, hops, hwf, inv => by
      rw [wfOps] at hwf
      simp only [Bool.and_eq_true, decide_eq_true_eq] at hwf
      have hcons : ridsOf (RingOp.addOp rid :: rest) = rid :: ridsOf rest := by
        simp [ridsOf, List.filterMap_cons]
      have hridu : rid ∈ u := by
        refine hops rid ?_
        rw [hcons]
        exact List.mem_cons_self rid (ridsOf rest)
      have hadd := ringInv_add hashF v pres r rid inv hwf.1
        (fun i hi r2 hr2 j hj he =>
          hwf.1 ((hinj rid hridu r2 (hpres r2 hr2) i hi j hj he).1 ▸ hr2))
        (fun i hi j hj he => (hinj rid hridu rid hridu i hi j hj he).2)
      show RingInv hashF v (presAfter rest (rid :: pres))
        (applyOps hashF v rest (addReplicaToRing hashF v rid r))
      refine ringInv_applyOps hashF v rest (rid :: pres) _ u hinj ?_ ?_ hwf.2 hadd
      · intro x hx
        rcases List.mem_cons.mp hx with h | h
        · exact h ▸ hridu
        · exact hpres x h
      · intro x hx
        refine hops x ?_
        rw [hcons]
        exact List.mem_cons_of_mem rid hx
  | RingOp.removeOp rid :: rest, pres, r, u, hinj, hpres, hops, hwf, inv => by
      rw [wfOps] at hwf
      simp only [Bool.and_eq_true, decide_eq_true_eq] at hwf
      have hcons : ridsOf (RingOp.removeOp rid :: rest) = ridsOf rest := by
        simp [ridsOf, List.filterMap_cons]
      have hrem := ringInv_remove hashF v pres r rid inv hwf.1
      show RingInv hashF v (presAfter rest (pres.erase rid))
        (applyOps hashF v rest (removeReplicaFromRing rid r))
      refine ringInv_applyOps hashF v rest (pres.erase rid) _ u hinj ?_ ?_
        hwf.2 hrem
      · intro x hx
        exact hpres x (List.mem_of_mem_erase hx)
      · intro x hx
        refine hops x ?_
        rw [hcons]
        exact hx

/-! ### Unconditional sortedness of the ring -/

theorem sorted_addReplicaToRing (hashF : String → Nat) (rid : String) :
    ∀ (v : Nat) (r : Ring), List.Sorted (· ≤ ·) r.sortedHashes →
      List.Sorted (· ≤ ·) (addReplicaToRing hashF v rid r).sortedHashes
  | 0, _, h => h
  | v + 1, r, h => by
      unfold addReplicaToRing
      rw [List.range_succ, List.foldl_append, List.foldl_cons, List.foldl_nil]
      exact sorted_insortRight _ _ (sorted_addReplicaToRing hashF rid v r h)

theorem sorted_removeReplicaFromRing (rid : String) (r : Ring)
    (h : List.Sorted (· ≤ ·) r.sortedHashes) :
    List.Sorted (· ≤ ·) (removeReplicaFromRing rid r).sortedHashes := by
  have hcomp := removeRing_fold (replicaPoints r rid) r
  unfold removeReplicaFromRing
  rw [hcomp]
  exact sorted_foldl_removePoint _ _ h

theorem sorted_applyOps (hashF : String → Nat) (v : Nat) :
    ∀ (ops : List RingOp) (r : Ring), List.Sorted (· ≤ ·) r.sortedHashes →
      List.Sorted (· ≤ ·) (applyOps hashF v ops r).sortedHashes
  | [], _, h => h
  | RingOp.addOp rid :: rest, r, h =>
      sorted_applyOps hashF v rest _ (sorted_addReplicaToRing hashF rid v r h)
  | RingOp.removeOp rid :: rest, r, h =>
      sorted_applyOps hashF v rest _ (sorted_removeReplicaFromRing rid r h)

/-- C6 counterexample: when the two virtual-node keys of replica A collide on
point 5, adding A and then removing A (a well-formed sequence) leaves point 5
in `sorted_hashes` while `hash_to_replica` no longer contains it — a ring
lookup at that point hits a point with no mapped replica. -/
theorem c6_counterexample :
    wfOps [RingOp.addOp "A", RingOp.removeOp "A"] [] = true ∧
    5 ∈ (applyOps collHash 2 [RingOp.addOp "A", RingOp.removeOp "A"]
      emptyRing).sortedHashes ∧
    dlookup 5 (applyOps collHash 2 [RingOp.addOp "A", RingOp.removeOp "A"]
      emptyRing).hashToReplica = none := by
  refine ⟨by decide, by decide, by decide⟩

/-- C6 (amended): after any sequence of replica additions and removals,
`sorted_hashes` stays in non-decreasing order; and provided the hash function
places the virtual-node keys of the added replicas on pairwise distinct
points (no collisions) and the sequence is well formed (add only absent ids,
remove only present ones, as both call sites guarantee), every element of
`sorted_hashes` is a key of `hash_to_replica`, so a ring lookup never hits a
point with no mapped replica.  With colliding virtual-node keys the
key-membership half fails (see the counterexample). -/
theorem c6_amended (hashF : String → Nat) (v : Nat) (ops : List RingOp) :
    List.Sorted (· ≤ ·) (applyOps hashF v ops emptyRing).sortedHashes ∧
    (wfOps ops [] = true → KeyInj hashF v (ridsOf ops) →
      ∀ p ∈ (applyOps hashF v ops emptyRing).sortedHashes,
        (dlookup p (applyOps hashF v ops emptyRing).hashToReplica).isSome) := by
  constructor
  · exact sorted_applyOps hashF v ops emptyRing List.sorted_nil
  · intro hwf hinj p hp
    have inv := ringInv_applyOps hashF v ops [] emptyRing (ridsOf ops) hinj
      (by simp) (fun x hx => hx) hwf (ringInv_empty hashF v)
    have h1 : 0 < (applyOps hashF v ops emptyRing).sortedHashes.count p :=
      List.count_pos_iff.mpr hp
    rw [inv.countEq p] at h1
    exact (dlookup_isSome_iff p _).mpr (List.count_pos_iff.mp h1)

/-- C6 witness: an injective hash, two adds and one removal keep the ring
consistent. -/
theorem c6_amended_witness :
    (wfOps c6Ops [] = true ∧ KeyInj c6Hash 2 (ridsOf c6Ops)) ∧
    ∀ p ∈ (applyOps c6Hash 2 c6Ops emptyRing).sortedHashes,
      (dlookup p (applyOps c6Hash 2 c6Ops emptyRing).hashToReplica).isSome :=
  ⟨⟨by decide, by decide⟩,
   (c6_amended c6Hash 2 c6Ops).2 (by decide) (by decide)⟩

end Neutree
